import Mathlib

/-!
# The current-thread store of karrot-frontend

A verification development over `src/messages/datastore/currentThread.js`, the Vuex
module that holds the thread a user is looking at: the identifier in scope, the list of
messages and the root message.

## Embedding

* JavaScript values that the module compares or tests for truthiness are `JsVal`;
  `===` on them is equality of `JsVal`, `!x` is `!x.truthy`.
* An object coming from the transport (a message, and also `state.thread`) is a record
  of `JsVal` fields, `Message`; a field the object does not have is `undefined`, so the
  object `{}` is `Message.empty`.
* The module state is `State`: the three fields set by `initialState ()`.  The module
  also registers the sub-modules `meta` and `pagination`, made by helpers of
  `@/utils/datastore/helpers`.  `Store` adds the statuses of `meta`, modelled from the
  specification, to `State`; what the module reads from `pagination` is passed as an
  argument.
* A mutation is a function `State → … → State`.
* An `async` action is cut at its `await`: `…Start` is the part that runs when the
  action is dispatched, `…Resume` the part that runs when the awaited transport call
  has resolved; the values the transport resolved with are arguments of `…Resume`.
  Other actions may run on the state between the two.
* Objects are embedded by value: that `fetch` commits one and the same object as
  `state.thread` and as an element of `state.messages` is not represented.
-/

namespace CurrentThread

/-! ## Values -/

/-- A JavaScript primitive value, as far as the module tells values apart. -/
inductive JsVal where
  | undefined
  | null
  | bool (b : Bool)
  | num (n : Int)
  | str (s : String)
  deriving DecidableEq, Repr, Inhabited

namespace JsVal

/-- JavaScript truthiness: `undefined`, `null`, `false`, `0` and `""` are falsy. -/
def truthy : JsVal → Bool
  | undefined => false
  | null => false
  | bool b => b
  | num n => n != 0
  | str s => s != ""

/-- The JavaScript operator `a || b`. -/
def or (a b : JsVal) : JsVal := if a.truthy then a else b

end JsVal

/-- An object handled by the module: a message of the transport, or `state.thread`.
A field that is absent on the object reads as `undefined`. -/
structure Message where
  id : JsVal := JsVal.undefined
  thread : JsVal := JsVal.undefined
  author : JsVal := JsVal.undefined
  muted : JsVal := JsVal.undefined
  ts : JsVal := JsVal.undefined
  content : JsVal := JsVal.undefined
  deriving DecidableEq, Repr, Inhabited

/-- The object literal `{}`. -/
def Message.empty : Message := {}

/-- The module state: `id` is the thread in scope (`currentThreadId` of the
specification), `messages` is `null` (`none`) or an array, `thread` is the root
message or `{}`. -/
structure State where
  id : JsVal
  messages : Option (List Message)
  thread : Message
  deriving DecidableEq, Repr

/-- The function `initialState ()`. -/
def initialState : State :=
  { id := JsVal.null, messages := none, thread := Message.empty }

/-! ## The sorted merge

`insertSorted` is imported from `./conversations`; it is modelled from section 4.1.1 of
the specification. -/

/-- Modelled from the spec: the "creation-order key" of a message, on which
`insertSorted` (imported from `./conversations`) orders; it is the number in the
timestamp field, and `0` for an object without one. -/
def Message.key (m : Message) : Int :=
  match m.ts with
  | JsVal.num n => n
  | _ => 0

/-- Modelled from the spec: the "merge-style interleave" of `insertSorted` (imported
from `./conversations`): the two sequences are interleaved by creation-order key, and on
a tie the element of the existing sequence goes first. -/
def interleave : List Message → List Message → List Message
  | [], incoming => incoming
  | existing, [] => existing
  | a :: existing, b :: incoming =>
    if a.key ≤ b.key then a :: interleave existing (b :: incoming)
    else b :: interleave (a :: existing) incoming

/-- Modelled from the spec: "removing any duplicate by identifier", "keeping the
first-seen occurrence", for `insertSorted` (imported from `./conversations`): a message
whose identifier is among `seen` or occurred earlier in the sequence is dropped. -/
def dropSeen : List JsVal → List Message → List Message
  | _, [] => []
  | seen, m :: rest =>
    if m.id ∈ seen then dropSeen seen rest else m :: dropSeen (m.id :: seen) rest

/-- Modelled from the spec: `insertSorted (stateMessages, messages, true)` of
`./conversations`, the sorted-merge algorithm of section 4.1.1: the union of both
sequences in creation order, a message present in both not being duplicated.  The call
in `update` passes `true` (oldest first), the one order the specification describes.
The source updates `stateMessages` in place; here the merged sequence is returned. -/
def insertSorted (stateMessages messages : List Message) : List Message :=
  dropSeen [] (interleave stateMessages messages)

/-! ## Mutations -/

namespace mutations

/-- The mutation `setScope (state, id) { state.id = id }`. -/
def setScope (state : State) (id : JsVal) : State :=
  { state with id := id }

/-- The mutation `setThread (state, thread) { state.thread = thread }`. -/
def setThread (state : State) (thread : Message) : State :=
  { state with thread := thread }

/-- The mutation `setMuted (state, muted) { state.thread.muted = muted }`. -/
def setMuted (state : State) (muted : JsVal) : State :=
  { state with thread := { state.thread with muted := muted } }

/-- The mutation `update (state, messages)`: a `null` list is initialised to
`messages`, any other list is merged with them. -/
def update (state : State) (messages : List Message) : State :=
  match state.messages with
  | none => { state with messages := some messages }
  | some stateMessages => { state with messages := some (insertSorted stateMessages messages) }

/-- The mutation `clear (state) { Object.assign(state, initialState()) }`: the three
fields of `initialState ()` are overwritten. -/
def clear (state : State) : State :=
  { state with
    id := initialState.id, messages := initialState.messages, thread := initialState.thread }

end mutations

/-! ## Actions -/

namespace actions

/-- The action `clear`: `commit('clear')`; the `dispatch('meta/clear', ['send'])` that
follows acts on the status tracker only. -/
def clear (state : State) : State :=
  mutations.clear state

/-- The action `receiveMessage ({ commit, state }, message)`. -/
def receiveMessage (state : State) (message : Message) : State :=
  if !state.id.truthy || message.thread != state.id then state
  else
    let state := mutations.update state [message]
    if message.id = state.id then mutations.setThread state message else state

/-- The action `send` after `await messageAPI.create(...)` has resolved with
`message`: `dispatch('receiveMessage', message)`. -/
def sendResume (state : State) (message : Message) : State :=
  receiveMessage state message

/-- The action `fetch` up to its `await`: the store is cleared if the identifier
changed, then the scope is set. -/
def fetchStart (state : State) (messageId : JsVal) : State :=
  let state := if state.id ≠ messageId then clear state else state
  mutations.setScope state messageId

/-- The action `fetch` from its `await` on: `firstMessage` is what
`messageAPI.get(messageId)` resolved with, `messages` the page of
`messageAPI.listThread(messageId)`. -/
def fetchResume (state : State) (messageId : JsVal) (firstMessage : Message)
    (messages : List Message) : State :=
  if state.id ≠ messageId then state
  else
    -- firstMessage.thread = firstMessage.id
    let firstMessage := { firstMessage with thread := firstMessage.id }
    let state := mutations.setThread state firstMessage
    -- messages.shift(); messages.unshift(firstMessage)
    let messages := firstMessage :: messages.drop 1
    mutations.update state messages

/-- The action `fetch` when nothing else runs while it awaits the transport. -/
def fetch (state : State) (messageId : JsVal) (firstMessage : Message)
    (messages : List Message) : State :=
  fetchResume (fetchStart state messageId) messageId firstMessage messages

/-- The action `fetchFuture` up to its `await`: `const id = state.id`; the captured
identifier is returned. -/
def fetchFutureStart (state : State) : JsVal :=
  state.id

/-- The action `fetchFuture` from its `await` on: `id` is the identifier captured at
the start, `data` the page `pagination/fetchNext` resolved with. -/
def fetchFutureResume (state : State) (id : JsVal) (data : List Message) : State :=
  if state.id ≠ id then state else mutations.update state data

/-- The action `setMuted` up to its `await`: the arguments of the transport call
`messageAPI.setMuted(threadId || state.thread.id, value)`. -/
def setMutedStart (state : State) (threadId value : JsVal) : JsVal × JsVal :=
  (threadId.or state.thread.id, value)

/-- The action `setMuted` from its `await` on: `commit('setMuted', value)`. -/
def setMutedResume (state : State) (value : JsVal) : State :=
  mutations.setMuted state value

/-- The action `maybeSetMuted` up to the `await` inside the `setMuted` it dispatches:
`pending` is `getters.setMutedStatus.pending`.  The result is the transport call that
was issued, if `setMuted` was dispatched. -/
def maybeSetMuted (pending : Bool) (state : State) (threadId value : JsVal) :
    Option (JsVal × JsVal) :=
  let prevent := decide (state.thread.muted = value)
  if !pending && !prevent then some (setMutedStart state threadId value) else none

end actions

/-! ## Getters -/

namespace getters

/-- The value of the getter `get`. -/
structure View (E U S C : Type) where
  enriched : E
  messages : List E
  author : U
  canFetchFuture : C
  sendStatus : S
  fetchStatus : S
  fetchFutureStatus : S

/-- The getter `thread`; `enrichMessage` is `rootGetters['conversations/enrichMessage']`. -/
def thread {E : Type} (enrichMessage : Message → E) (state : State) : E :=
  enrichMessage state.thread

/-- The getter `get`; `usersGet` is `rootGetters['users/get']`, `canFetchNext` is
`getters['pagination/canFetchNext']` and the three statuses are the getters made by
`metaStatuses`. -/
def get {E U S C : Type} (enrichMessage : Message → E) (usersGet : JsVal → U)
    (canFetchNext : C) (sendStatus fetchStatus fetchFutureStatus : S) (state : State) :
    View E U S C :=
  let messages := (state.messages.getD []).map enrichMessage
  { enriched := enrichMessage state.thread
    messages := messages
    author := usersGet state.thread.author
    canFetchFuture := canFetchNext
    sendStatus := sendStatus
    fetchStatus := fetchStatus
    fetchFutureStatus := fetchFutureStatus }

end getters

/-! ## The store with its status tracker

`meta: createMetaModule()` makes the status tracker a sub-module: its state lives next to
`id`, `messages` and `thread`.  The helper is imported from `@/utils/datastore/helpers`;
what it records is modelled from sections 2 and 6 of the specification. -/

/-- Modelled from the spec: what the status tracker (`createMetaModule`, imported from
`@/utils/datastore/helpers`) records for one named operation: nothing yet, or
"pending/success/failure", a failure carrying the "has validation error" predicate that
`fetchOrRedirect` reads. -/
inductive Status where
  | idle
  | pending
  | success
  | failure (hasValidationErrors : Bool)
  deriving DecidableEq, Repr

/-- Modelled from the spec: the state of the status tracker (`createMetaModule`), one
status for each name the module lists in `metaStatuses([...])`; on a new store nothing
is recorded. -/
structure Statuses where
  send : Status := Status.idle
  fetch : Status := Status.idle
  fetchFuture : Status := Status.idle
  setMuted : Status := Status.idle
  mark : Status := Status.idle
  deriving DecidableEq, Repr

/-- Modelled from the spec: `meta/clear` of the status tracker (`createMetaModule`) as
the action `clear` dispatches it, with `['send']`: "`clear(names)` resets named
statuses". -/
def Statuses.clearSend (statuses : Statuses) : Statuses :=
  { statuses with send := Status.idle }

/-- The module state together with the state of its sub-module `meta`. -/
structure Store where
  state : State
  statuses : Statuses
  deriving DecidableEq, Repr

/-- A store as the module declares it: `state: initialState()`, nothing recorded by the
status tracker. -/
def Store.fresh : Store :=
  { state := initialState, statuses := {} }

/-- The mutation `clear` on the store: `Object.assign(state, initialState())` assigns
`id`, `messages` and `thread`; the state of the sub-module is not among the assigned
fields. -/
def Store.clearMutation (store : Store) : Store :=
  { store with state := mutations.clear store.state }

/-- The action `clear` on the store: `commit('clear')`, then
`dispatch('meta/clear', ['send'])`. -/
def Store.clearAction (store : Store) : Store :=
  { state := (Store.clearMutation store).state
    statuses := (Store.clearMutation store).statuses.clearSend }

/-- The getter `get` on the store: `getters.sendStatus`, `getters.fetchStatus` and
`getters.fetchFutureStatus`, the getters made by `metaStatuses`, report the statuses of
the tracker. -/
def Store.get {E U C : Type} (enrichMessage : Message → E) (usersGet : JsVal → U)
    (canFetchNext : C) (store : Store) : getters.View E U Status C :=
  getters.get enrichMessage usersGet canFetchNext store.statuses.send store.statuses.fetch
    store.statuses.fetchFuture store.state

/-! ## Predicates used in the statements -/

/-- A sequence in creation order: keys never decrease. -/
def Ordered (l : List Message) : Prop :=
  l.Pairwise (fun a b => a.key ≤ b.key)

/-- The identifiers of a sequence, in order. -/
def ids (l : List Message) : List JsVal :=
  l.map (fun m => m.id)

/-! ## Sample data -/

namespace Sample

def T1 : Message := { id := JsVal.str "T1" }
def M2 : Message := { id := JsVal.str "M2" }
def stampedT1 : Message := { id := JsVal.str "T1", thread := JsVal.str "T1" }

/-- A store on which thread `B` has been fetched. -/
def loadedB : State :=
  { id := JsVal.str "B"
    messages := some [{ id := JsVal.str "B", thread := JsVal.str "B", muted := JsVal.bool false }]
    thread := { id := JsVal.str "B", thread := JsVal.str "B", muted := JsVal.bool false } }

/-- A store on which thread `A` has been fetched. -/
def loadedA : State :=
  { id := JsVal.str "A"
    messages := some [{ id := JsVal.str "A", thread := JsVal.str "A", muted := JsVal.bool false }]
    thread := { id := JsVal.str "A", thread := JsVal.str "A", muted := JsVal.bool false } }

/-- A reply in thread `A`. -/
def replyA : Message := { id := JsVal.str "A2", thread := JsVal.str "A" }

def rootA : Message := { id := JsVal.str "A", muted := JsVal.bool false }
def rootB : Message := { id := JsVal.str "B", muted := JsVal.bool false }

def M1 : Message := { id := JsVal.str "M1", ts := JsVal.num 1 }
def M3 : Message := { id := JsVal.str "M3", ts := JsVal.num 3 }
def M4 : Message := { id := JsVal.str "M4", ts := JsVal.num 4 }

/-- A store whose list is `[M1, M3]`. -/
def withM1M3 : State :=
  { id := JsVal.str "T1", messages := some [M1, M3], thread := stampedT1 }

/-- The store while the first `fetch ("T1")` awaits the transport. -/
def awaitingT1 : State :=
  { id := JsVal.str "T1", messages := none, thread := Message.empty }

/-- A reply in thread `T1`. -/
def replyT1 : Message := { id := JsVal.str "M2", thread := JsVal.str "T1", ts := JsVal.num 2 }

/-- The root of thread `A` as the transport held it when the first `fetch ("A")` was
made. -/
def staleRootA : Message := { id := JsVal.str "A", content := JsVal.str "old" }

/-- The root of thread `A` arriving over the push channel, now muted. -/
def liveRootA : Message :=
  { id := JsVal.str "A", thread := JsVal.str "A", muted := JsVal.bool true }

/-- The store after `fetch ("X")` failed because there is no such thread: the scope is
set, nothing was committed, and the tracker holds the failure for `fetch`. -/
def failedFetch : Store :=
  { state := { id := JsVal.str "X", messages := none, thread := Message.empty }
    statuses := { fetch := Status.failure true } }

end Sample

/-- The root message is at the head of the list and nowhere else: `thread.id` is `id`,
`messages[0].id` is `id`, and no other element of `messages` has that identifier. -/
def RootFirstOnce (id : JsVal) (state : State) : Prop :=
  state.thread.id = id ∧
    ∃ first rest, state.messages = some (first :: rest) ∧ first.id = id ∧
      ∀ x ∈ rest, x.id ≠ id

/-! ## Properties of the sorted merge -/

theorem dropSeen_sublist (seen : List JsVal) (l : List Message) :
    (dropSeen seen l).Sublist l := by
  induction l generalizing seen with
  | nil => simp [dropSeen]
  | cons m rest ih =>
    unfold dropSeen
    split
    · exact (ih seen).cons m
    · exact (ih (m.id :: seen)).cons₂ m

theorem mem_dropSeen_iff (seen : List JsVal) (l : List Message) (i : JsVal) :
    i ∈ ids (dropSeen seen l) ↔ i ∈ ids l ∧ i ∉ seen := by
  induction l generalizing seen with
  | nil => simp [dropSeen, ids]
  | cons m rest ih =>
    unfold dropSeen
    split
    · rename_i hm
      rw [ih]
      simp only [ids, List.map_cons, List.mem_cons]
      constructor
      · rintro ⟨h1, h2⟩
        exact ⟨Or.inr h1, h2⟩
      · rintro ⟨h1 | h1, h2⟩
        · exact absurd (h1 ▸ hm) h2
        · exact ⟨h1, h2⟩
    · rename_i hm
      have ih2 := ih (m.id :: seen)
      simp only [ids, List.map_cons, List.mem_cons] at ih2 ⊢
      rw [ih2]
      constructor
      · rintro (h | ⟨h1, h2⟩)
        · exact ⟨Or.inl h, h ▸ hm⟩
        · exact ⟨Or.inr h1, fun h => h2 (Or.inr h)⟩
      · rintro ⟨h1 | h1, h2⟩
        · exact Or.inl h1
        · by_cases h : i = m.id
          · exact Or.inl h
          · exact Or.inr ⟨h1, fun h3 => h3.elim h h2⟩

theorem not_seen_of_mem_dropSeen {seen : List JsVal} {l : List Message} {y : Message}
    (h : y ∈ dropSeen seen l) : y.id ∉ seen := by
  have : y.id ∈ ids (dropSeen seen l) := List.mem_map_of_mem _ h
  exact ((mem_dropSeen_iff seen l y.id).1 this).2

theorem dropSeen_distinct (seen : List JsVal) (l : List Message) :
    (dropSeen seen l).Pairwise (fun a b => a.id ≠ b.id) := by
  induction l generalizing seen with
  | nil => simp [dropSeen]
  | cons m rest ih =>
    unfold dropSeen
    split
    · exact ih seen
    · refine List.Pairwise.cons ?_ (ih _)
      intro y hy h
      exact not_seen_of_mem_dropSeen hy (by simp [h])

theorem ids_nodup_dropSeen (seen : List JsVal) (l : List Message) :
    (ids (dropSeen seen l)).Nodup := by
  unfold ids List.Nodup
  rw [List.pairwise_map]
  exact dropSeen_distinct seen l

theorem interleave_perm (a b : List Message) : (interleave a b).Perm (a ++ b) := by
  induction a, b using interleave.induct with
  | case1 incoming => simp [interleave]
  | case2 existing h => simp [interleave]
  | case3 a existing b incoming h ih =>
    rw [interleave, if_pos h]
    exact (ih.cons a)
  | case4 a existing b incoming h ih =>
    rw [interleave, if_neg h]
    refine (ih.cons b).trans ?_
    have hmid : (a :: existing ++ b :: incoming).Perm (b :: (a :: existing ++ incoming)) :=
      List.perm_middle
    simpa using hmid.symm

theorem interleave_ordered (a b : List Message) (ha : Ordered a) (hb : Ordered b) :
    Ordered (interleave a b) := by
  induction a, b using interleave.induct with
  | case1 incoming => simpa [interleave] using hb
  | case2 existing h => simpa [interleave] using ha
  | case3 a existing b incoming h ih =>
    rw [interleave, if_pos h]
    unfold Ordered at *
    rw [List.pairwise_cons] at ha ⊢
    refine ⟨?_, ih ha.2 hb⟩
    intro y hy
    have := (interleave_perm existing (b :: incoming)).subset hy
    rw [List.mem_append] at this
    rcases this with h1 | h1
    · exact ha.1 y h1
    · rw [List.mem_cons] at h1
      rcases h1 with h1 | h1
      · exact h1 ▸ h
      · exact le_trans h ((List.pairwise_cons.1 hb).1 y h1)
  | case4 a existing b incoming h ih =>
    rw [interleave, if_neg h]
    unfold Ordered at *
    rw [List.pairwise_cons] at hb ⊢
    refine ⟨?_, ih ha hb.2⟩
    intro y hy
    have := (interleave_perm (a :: existing) incoming).subset hy
    rw [List.mem_append] at this
    have hba : b.key ≤ a.key := le_of_lt (not_le.1 h)
    rcases this with h1 | h1
    · rw [List.mem_cons] at h1
      rcases h1 with h1 | h1
      · exact h1 ▸ hba
      · exact le_trans hba ((List.pairwise_cons.1 ha).1 y h1)
    · exact hb.1 y h1


theorem dropSeen_eq_nil (seen : List JsVal) (l : List Message)
    (h : ∀ x ∈ l, x.id ∈ seen) : dropSeen seen l = [] := by
  induction l with
  | nil => simp [dropSeen]
  | cons m rest ih =>
    rw [dropSeen, if_pos (h m (List.mem_cons_self _ _))]
    exact ih (fun x hx => h x (List.mem_cons_of_mem _ hx))

/-- In an ordered sequence the occurrence of an identifier that `dropSeen` keeps is not
younger than any other occurrence of it. -/
theorem exists_kept_le (seen : List JsVal) (l : List Message) (hl : Ordered l)
    (x : Message) (hx : x ∈ l) (hs : x.id ∉ seen) :
    ∃ y ∈ dropSeen seen l, y.id = x.id ∧ y.key ≤ x.key := by
  induction l generalizing seen with
  | nil => simp at hx
  | cons m rest ih =>
    unfold Ordered at hl
    rw [List.pairwise_cons] at hl
    rw [List.mem_cons] at hx
    by_cases hm : m.id ∈ seen
    · rw [dropSeen, if_pos hm]
      rcases hx with hx | hx
      · exact absurd (hx ▸ hm) hs
      · exact ih seen hl.2 hx hs
    · rw [dropSeen, if_neg hm]
      rcases hx with hx | hx
      · exact ⟨m, List.mem_cons_self _ _, by rw [hx], by rw [hx]⟩
      · by_cases hid : x.id = m.id
        · exact ⟨m, List.mem_cons_self _ _, hid.symm, hl.1 x hx⟩
        · obtain ⟨y, hy, h1, h2⟩ := ih (m.id :: seen) hl.2 hx
            (by simp only [List.mem_cons, not_or]; exact ⟨hid, hs⟩)
          exact ⟨y, List.mem_cons_of_mem _ hy, h1, h2⟩

/-- Interleaving a batch whose identifiers are all seen already, or present in the
ordered sequence under a key that is not larger, adds nothing after `dropSeen`. -/
theorem dropSeen_interleave_absorb (seen : List JsVal) (r i : List Message)
    (hr : Ordered r)
    (h : ∀ x ∈ i, x.id ∈ seen ∨ ∃ y ∈ r, y.id = x.id ∧ y.key ≤ x.key) :
    dropSeen seen (interleave r i) = dropSeen seen r := by
  induction r, i using interleave.induct generalizing seen with
  | case1 incoming =>
    rw [interleave]
    simp only [dropSeen]
    apply dropSeen_eq_nil
    intro x hx
    rcases h x hx with h1 | ⟨y, hy, _⟩
    · exact h1
    · simp at hy
  | case2 existing hne => simp [interleave]
  | case3 a existing b incoming hab ih =>
    rw [interleave, if_pos hab]
    unfold Ordered at hr
    rw [List.pairwise_cons] at hr
    by_cases ha : a.id ∈ seen
    · rw [dropSeen, if_pos ha, dropSeen, if_pos ha]
      apply ih seen hr.2
      intro x hx
      rcases h x hx with h1 | ⟨y, hy, h1, h2⟩
      · exact Or.inl h1
      · rw [List.mem_cons] at hy
        rcases hy with hy | hy
        · left; rw [← h1, hy]; exact ha
        · exact Or.inr ⟨y, hy, h1, h2⟩
    · rw [dropSeen, if_neg ha, dropSeen, if_neg ha]
      congr 1
      apply ih (a.id :: seen) hr.2
      intro x hx
      rcases h x hx with h1 | ⟨y, hy, h1, h2⟩
      · exact Or.inl (List.mem_cons_of_mem _ h1)
      · rw [List.mem_cons] at hy
        rcases hy with hy | hy
        · left; rw [← h1, hy]; exact List.mem_cons_self _ _
        · exact Or.inr ⟨y, hy, h1, h2⟩
  | case4 a existing b incoming hab ih =>
    rw [interleave, if_neg hab]
    have hb : b.id ∈ seen := by
      rcases h b (List.mem_cons_self _ _) with h1 | ⟨y, hy, _, h2⟩
      · exact h1
      · exfalso
        apply hab
        unfold Ordered at hr
        rw [List.pairwise_cons] at hr
        rw [List.mem_cons] at hy
        rcases hy with hy | hy
        · exact hy ▸ h2
        · exact le_trans (hr.1 y hy) h2
    rw [dropSeen, if_pos hb]
    exact ih seen hr (fun x hx => h x (List.mem_cons_of_mem _ hx))

theorem dropSeen_of_distinct (seen : List JsVal) (l : List Message)
    (hd : l.Pairwise (fun a b => a.id ≠ b.id)) (hs : ∀ x ∈ l, x.id ∉ seen) :
    dropSeen seen l = l := by
  induction l generalizing seen with
  | nil => simp [dropSeen]
  | cons m rest ih =>
    rw [List.pairwise_cons] at hd
    rw [dropSeen, if_neg (hs m (List.mem_cons_self _ _))]
    congr 1
    apply ih _ hd.2
    intro x hx
    simp only [List.mem_cons, not_or]
    exact ⟨fun h => hd.1 x hx h.symm, hs x (List.mem_cons_of_mem _ hx)⟩

theorem insertSorted_ordered (a b : List Message) (ha : Ordered a) (hb : Ordered b) :
    Ordered (insertSorted a b) :=
  List.Pairwise.sublist (dropSeen_sublist _ _) (interleave_ordered a b ha hb)

theorem mem_ids_insertSorted (a b : List Message) (i : JsVal) :
    i ∈ ids (insertSorted a b) ↔ i ∈ ids a ∨ i ∈ ids b := by
  unfold insertSorted
  rw [mem_dropSeen_iff]
  simp only [List.not_mem_nil, not_false_eq_true, and_true]
  unfold ids
  rw [(interleave_perm a b).map _ |>.mem_iff]
  simp

theorem insertSorted_idem (a b : List Message) (ha : Ordered a) (hb : Ordered b) :
    insertSorted (insertSorted a b) b = insertSorted a b := by
  have hord := interleave_ordered a b ha hb
  have hr : Ordered (insertSorted a b) := insertSorted_ordered a b ha hb
  have habs : dropSeen [] (interleave (insertSorted a b) b) = dropSeen [] (insertSorted a b) := by
    apply dropSeen_interleave_absorb [] _ _ hr
    intro x hx
    right
    have hx2 : x ∈ interleave a b :=
      (interleave_perm a b).symm.subset (List.mem_append_right _ hx)
    exact exists_kept_le [] _ hord x hx2 (by simp)
  have hfix : dropSeen [] (insertSorted a b) = insertSorted a b :=
    dropSeen_of_distinct [] _ (dropSeen_distinct [] _) (by simp)
  calc insertSorted (insertSorted a b) b
      = dropSeen [] (interleave (insertSorted a b) b) := rfl
    _ = dropSeen [] (insertSorted a b) := habs
    _ = insertSorted a b := hfix


/-! ## The claims -/

/-- C1: race guard of `fetch`.  If the identifier in scope differs from `messageId`
when `fetch (messageId)` resumes after its transport calls, the resumption commits
nothing, whatever root message and page the transport returned: `messages` and `thread`
are as they were, and so is the whole state. -/
theorem fetchResume_stale_discarded (state : State) (messageId : JsVal)
    (firstMessage : Message) (messages : List Message) (h : state.id ≠ messageId) :
    (actions.fetchResume state messageId firstMessage messages).messages = state.messages ∧
    (actions.fetchResume state messageId firstMessage messages).thread = state.thread ∧
    actions.fetchResume state messageId firstMessage messages = state := by
  have hres : actions.fetchResume state messageId firstMessage messages = state := by
    unfold actions.fetchResume
    rw [if_pos h]
  rw [hres]
  exact ⟨rfl, rfl, rfl⟩

/-- C1, on the store holding thread `B` when a `fetch ("A")` resumes. -/
theorem fetchResume_stale_discarded_witness :
    Sample.loadedB.id ≠ JsVal.str "A" ∧
    (actions.fetchResume Sample.loadedB (JsVal.str "A") Sample.rootA [Sample.rootA]).messages
      = Sample.loadedB.messages ∧
    (actions.fetchResume Sample.loadedB (JsVal.str "A") Sample.rootA [Sample.rootA]).thread
      = Sample.loadedB.thread ∧
    actions.fetchResume Sample.loadedB (JsVal.str "A") Sample.rootA [Sample.rootA]
      = Sample.loadedB :=
  ⟨by decide, fetchResume_stale_discarded _ _ _ _ (by decide)⟩

/-- C2 fails on the code: from the cleared store, `fetch ("T1")` succeeds with the root
`T1` and the page `[M2, T1]`; the scope is `T1` and `thread.id` is `T1`, but the list
committed is `[T1, T1]`: the first element of the page is shifted out whatever it is,
the root that stays in the page is a second element with the identifier `T1`, and the
root is in the list two times. -/
theorem fetch_duplicates_root :
    (actions.fetch initialState (JsVal.str "T1") Sample.T1 [Sample.M2, Sample.T1]).id
      = JsVal.str "T1" ∧
    (actions.fetch initialState (JsVal.str "T1") Sample.T1 [Sample.M2, Sample.T1]).thread
      = Sample.stampedT1 ∧
    (actions.fetch initialState (JsVal.str "T1") Sample.T1 [Sample.M2, Sample.T1]).messages
      = some [Sample.stampedT1, Sample.T1] ∧
    ¬ RootFirstOnce (JsVal.str "T1")
        (actions.fetch initialState (JsVal.str "T1") Sample.T1 [Sample.M2, Sample.T1]) := by
  have hrun : (actions.fetch initialState (JsVal.str "T1") Sample.T1
      [Sample.M2, Sample.T1]).messages = some [Sample.stampedT1, Sample.T1] := by decide
  refine ⟨by decide, by decide, hrun, ?_⟩
  rintro ⟨-, first, rest, hm, -, hrest⟩
  rw [hrun] at hm
  simp only [Option.some.injEq, List.cons.injEq] at hm
  obtain ⟨-, rfl⟩ := hm
  exact hrest Sample.T1 (List.mem_singleton.2 rfl) rfl

/-- C3 fails when the root is not in the page: from the cleared store, `fetch ("T1")`
with root `T1` and the page `[M2]` commits `[T1]` and not `[T1, M2]`: `M2` is shifted
out although it is not the root. -/
theorem fetch_drops_other_first :
    (actions.fetch initialState (JsVal.str "T1") Sample.T1 [Sample.M2]).messages
        = some [Sample.stampedT1] ∧
    (actions.fetch initialState (JsVal.str "T1") Sample.T1 [Sample.M2]).messages
        ≠ some ({ Sample.T1 with thread := Sample.T1.id } ::
            [Sample.M2].filter (fun m => m.id != Sample.T1.id)) := by
  decide

/-- C3, amended: from a cleared store (`messages` is `null`) and with the scope still
equal to `messageId`, for every root `r` and every page `p` that is empty or has the
root as its first element, and holds it nowhere else: `fetch` sets `thread` to `r` with
its thread reference set to `r.id`, and sets `messages` to that stamped root followed by
`p` with the root message removed, which for these pages is `p` without its first
element. -/
theorem fetchResume_cleared_commit (state : State) (messageId : JsVal) (r : Message)
    (p : List Message) (hnull : state.messages = none) (hscope : state.id = messageId)
    (hhead : ∀ x ∈ p.head?, x.id = r.id) (htail : ∀ x ∈ p.drop 1, x.id ≠ r.id) :
    (actions.fetchResume state messageId r p).thread = { r with thread := r.id } ∧
    (actions.fetchResume state messageId r p).messages
      = some ({ r with thread := r.id } :: p.drop 1) ∧
    (actions.fetchResume state messageId r p).messages
      = some ({ r with thread := r.id } :: p.filter (fun m => m.id != r.id)) := by
  have hfilter : p.filter (fun m => m.id != r.id) = p.drop 1 := by
    cases p with
    | nil => rfl
    | cons a t =>
      have ha : a.id = r.id := hhead a (by simp)
      have ht : ∀ x ∈ t, (x.id != r.id) = true := by
        intro x hx
        simpa using htail x (by simpa using hx)
      simp [List.filter_cons, ha, List.filter_eq_self.2 ht]
  rw [hfilter]
  unfold actions.fetchResume
  rw [if_neg (not_not.2 hscope)]
  simp [mutations.update, mutations.setThread, hnull]

/-- C3, amended, on the scenario of the specification: store cleared, `fetch ("T1")`
resolves with root `T1` and page `[T1, M2]`; `messages` is `[T1 with thread T1, M2]`. -/
theorem fetchResume_cleared_commit_witness :
    (actions.fetchResume (actions.fetchStart initialState (JsVal.str "T1")) (JsVal.str "T1")
        Sample.T1 [Sample.T1, Sample.M2]).thread = Sample.stampedT1 ∧
    (actions.fetchResume (actions.fetchStart initialState (JsVal.str "T1")) (JsVal.str "T1")
        Sample.T1 [Sample.T1, Sample.M2]).messages = some [Sample.stampedT1, Sample.M2] ∧
    (actions.fetchResume (actions.fetchStart initialState (JsVal.str "T1")) (JsVal.str "T1")
        Sample.T1 [Sample.T1, Sample.M2]).messages
      = some (Sample.stampedT1 :: [Sample.T1, Sample.M2].filter
          (fun m => m.id != Sample.T1.id)) :=
  fetchResume_cleared_commit (actions.fetchStart initialState (JsVal.str "T1"))
    (JsVal.str "T1") Sample.T1 [Sample.T1, Sample.M2]
    (by decide) (by decide) (by decide) (by decide)

/-- C4 fails on the code: `setMuted ({ threadId: "A", value: true })` is dispatched on
the store holding thread `A`; while its transport call (made for `A`) is awaited,
`fetch ("B")` runs to completion; when the call resolves, `commit('setMuted', true)`
mutes the thread now in scope, `B`, whose flag was `false`. -/
theorem setMuted_commits_after_scope_change :
    actions.setMutedStart Sample.loadedA (JsVal.str "A") (JsVal.bool true)
      = (JsVal.str "A", JsVal.bool true) ∧
    (actions.fetch Sample.loadedA (JsVal.str "B") Sample.rootB [Sample.rootB]).id
      = JsVal.str "B" ∧
    (actions.fetch Sample.loadedA (JsVal.str "B") Sample.rootB [Sample.rootB]).thread.id
      = JsVal.str "B" ∧
    (actions.fetch Sample.loadedA (JsVal.str "B") Sample.rootB [Sample.rootB]).thread.muted
      = JsVal.bool false ∧
    (actions.setMutedResume
      (actions.fetch Sample.loadedA (JsVal.str "B") Sample.rootB [Sample.rootB])
      (JsVal.bool true)).thread.id = JsVal.str "B" ∧
    (actions.setMutedResume
      (actions.fetch Sample.loadedA (JsVal.str "B") Sample.rootB [Sample.rootB])
      (JsVal.bool true)).thread.muted = JsVal.bool true := by
  decide

/-- C5: race guard of `fetchFuture`.  `fetchFuture` captures the identifier in scope
when it starts; when the page of the pagination collaborator has arrived, a store whose
identifier in scope differs from the captured one is left as it is (`messages` and
`thread` unchanged), and a store whose identifier is the same gets the page through the
`update` mutation: a `null` list becomes the page, any other list is merged with it. -/
theorem fetchFutureResume_guard (started state : State) (data : List Message) :
    (state.id ≠ actions.fetchFutureStart started →
      (actions.fetchFutureResume state (actions.fetchFutureStart started) data).messages
          = state.messages ∧
      (actions.fetchFutureResume state (actions.fetchFutureStart started) data).thread
          = state.thread ∧
      actions.fetchFutureResume state (actions.fetchFutureStart started) data = state) ∧
    (state.id = actions.fetchFutureStart started →
      actions.fetchFutureResume state (actions.fetchFutureStart started) data
          = mutations.update state data ∧
      (actions.fetchFutureResume state (actions.fetchFutureStart started) data).thread
          = state.thread ∧
      (actions.fetchFutureResume state (actions.fetchFutureStart started) data).messages
          = some (match state.messages with
              | none => data
              | some stateMessages => insertSorted stateMessages data)) := by
  constructor
  · intro h
    have hres : actions.fetchFutureResume state (actions.fetchFutureStart started) data
        = state := by
      unfold actions.fetchFutureResume
      rw [if_pos h]
    rw [hres]
    exact ⟨rfl, rfl, rfl⟩
  · intro h
    have hres : actions.fetchFutureResume state (actions.fetchFutureStart started) data
        = mutations.update state data := by
      unfold actions.fetchFutureResume
      rw [if_neg (not_not.2 h)]
    rw [hres]
    refine ⟨rfl, ?_, ?_⟩
    · unfold mutations.update
      cases state.messages <;> rfl
    · unfold mutations.update
      cases state.messages <;> rfl

/-- C5 on two runs: `fetchFuture` started on the store holding `[M1, M3]` under scope
`T1`; the page `[M4]` is dropped when thread `B` is in scope on completion, and is
merged to `[M1, M3, M4]` when the scope is still `T1`. -/
theorem fetchFutureResume_guard_witness :
    ((actions.fetchFutureResume Sample.loadedB (actions.fetchFutureStart Sample.withM1M3)
        [Sample.M4]).messages = Sample.loadedB.messages ∧
      (actions.fetchFutureResume Sample.loadedB (actions.fetchFutureStart Sample.withM1M3)
        [Sample.M4]).thread = Sample.loadedB.thread ∧
      actions.fetchFutureResume Sample.loadedB (actions.fetchFutureStart Sample.withM1M3)
        [Sample.M4] = Sample.loadedB) ∧
    (actions.fetchFutureResume Sample.withM1M3 (actions.fetchFutureStart Sample.withM1M3)
        [Sample.M4] = mutations.update Sample.withM1M3 [Sample.M4] ∧
      (actions.fetchFutureResume Sample.withM1M3 (actions.fetchFutureStart Sample.withM1M3)
        [Sample.M4]).thread = Sample.withM1M3.thread ∧
      (actions.fetchFutureResume Sample.withM1M3 (actions.fetchFutureStart Sample.withM1M3)
        [Sample.M4]).messages = some (insertSorted [Sample.M1, Sample.M3] [Sample.M4])) :=
  ⟨(fetchFutureResume_guard Sample.withM1M3 Sample.loadedB [Sample.M4]).1 (by decide),
   (fetchFutureResume_guard Sample.withM1M3 Sample.withM1M3 [Sample.M4]).2 (by decide)⟩

/-- C6: `receiveMessage (m)` is a no-op whenever no thread is in scope (`state.id` is
falsy) or `m.thread` differs from `state.id`: `messages` and `thread`, and the whole
state, are what they were. -/
theorem receiveMessage_other_thread (state : State) (m : Message)
    (h : state.id.truthy = false ∨ m.thread ≠ state.id) :
    (actions.receiveMessage state m).messages = state.messages ∧
    (actions.receiveMessage state m).thread = state.thread ∧
    actions.receiveMessage state m = state := by
  have hres : actions.receiveMessage state m = state := by
    unfold actions.receiveMessage
    rw [if_pos]
    rcases h with h | h
    · simp [h]
    · simp [h]
  rw [hres]
  exact ⟨rfl, rfl, rfl⟩

/-- C6 on a message of thread `A` arriving at the store that holds thread `B`. -/
theorem receiveMessage_other_thread_witness :
    (Sample.loadedB.id.truthy = false ∨ Sample.replyA.thread ≠ Sample.loadedB.id) ∧
    (actions.receiveMessage Sample.loadedB Sample.replyA).messages = Sample.loadedB.messages ∧
    (actions.receiveMessage Sample.loadedB Sample.replyA).thread = Sample.loadedB.thread ∧
    actions.receiveMessage Sample.loadedB Sample.replyA = Sample.loadedB :=
  ⟨Or.inr (by decide), receiveMessage_other_thread _ _ (Or.inr (by decide))⟩

/-- C7: sorted merge through `update`.  For a store whose list is not `null` and in
creation order, and a batch in creation order, the list after `update` is in creation
order, its identifiers are those of the old list and of the batch together, none occurs
twice, and a second `update` with the same batch changes nothing. -/
theorem update_sorted_merge (state : State) (stateMessages batch : List Message)
    (hlist : state.messages = some stateMessages) (hstate : Ordered stateMessages)
    (hbatch : Ordered batch) :
    ∃ merged, (mutations.update state batch).messages = some merged ∧
      Ordered merged ∧
      (∀ i, i ∈ ids merged ↔ i ∈ ids stateMessages ∨ i ∈ ids batch) ∧
      (ids merged).Nodup ∧
      mutations.update (mutations.update state batch) batch = mutations.update state batch := by
  refine ⟨insertSorted stateMessages batch, ?_, insertSorted_ordered _ _ hstate hbatch,
    mem_ids_insertSorted _ _, ids_nodup_dropSeen _ _, ?_⟩
  · simp [mutations.update, hlist]
  · simp [mutations.update, hlist, insertSorted_idem _ _ hstate hbatch]

/-- C7 on the scenario of the specification: `[M1 (ts 1), M3 (ts 3)]` merged with
`[M4 (ts 4)]` is `[M1, M3, M4]`, and the properties of the merge hold of it. -/
theorem update_sorted_merge_witness :
    (mutations.update Sample.withM1M3 [Sample.M4]).messages
      = some [Sample.M1, Sample.M3, Sample.M4] ∧
    ∃ merged, (mutations.update Sample.withM1M3 [Sample.M4]).messages = some merged ∧
      Ordered merged ∧
      (∀ i, i ∈ ids merged ↔ i ∈ ids [Sample.M1, Sample.M3] ∨ i ∈ ids [Sample.M4]) ∧
      (ids merged).Nodup ∧
      mutations.update (mutations.update Sample.withM1M3 [Sample.M4]) [Sample.M4]
        = mutations.update Sample.withM1M3 [Sample.M4] :=
  ⟨by simp [mutations.update, Sample.withM1M3, insertSorted, interleave, dropSeen,
      Message.key, Sample.M1, Sample.M3, Sample.M4],
   update_sorted_merge Sample.withM1M3 [Sample.M1, Sample.M3] [Sample.M4] rfl
    (by unfold Ordered; decide) (by unfold Ordered; decide)⟩

/-- C8 fails for the getter `get`: on the store left by a failed `fetch`, the state
after `clear` is `initialState ()`, but `get` still reports the failure as `fetchStatus`,
where a fresh store reports that nothing is recorded; so `get` differs from what it
returns on a fresh store, after the mutation and after the action alike. -/
theorem clear_keeps_fetch_status :
    (Store.clearMutation Sample.failedFetch).state = initialState ∧
    (Store.clearAction Sample.failedFetch).state = initialState ∧
    (Store.get (fun m => m) (fun a => a) false
        (Store.clearMutation Sample.failedFetch)).fetchStatus = Status.failure true ∧
    (Store.get (fun m => m) (fun a => a) false
        (Store.clearAction Sample.failedFetch)).fetchStatus = Status.failure true ∧
    (Store.get (fun m => m) (fun a => a) false Store.fresh).fetchStatus = Status.idle ∧
    Store.get (fun m => m) (fun a => a) false (Store.clearMutation Sample.failedFetch)
      ≠ Store.get (fun m => m) (fun a => a) false Store.fresh ∧
    Store.get (fun m => m) (fun a => a) false (Store.clearAction Sample.failedFetch)
      ≠ Store.get (fun m => m) (fun a => a) false Store.fresh := by
  refine ⟨rfl, rfl, rfl, rfl, rfl, ?_, ?_⟩
  · intro h
    have hstatus := congrArg getters.View.fetchStatus h
    exact absurd hstatus (by decide)
  · intro h
    have hstatus := congrArg getters.View.fetchStatus h
    exact absurd hstatus (by decide)

/-- C8, amended: `clear` resets the three fields of the state.  For every store, the
state after the `clear` mutation is `initialState ()` (`id` null, `messages` null,
`thread` empty) and the statuses of the tracker are what they were; the `clear` action
resets the `send` status besides and leaves the other statuses.  So the getter `thread`,
and of the getter `get` the enriched thread, the messages and the author, are what they
are on a fresh store, and after the action so is `sendStatus`; `fetchStatus` and
`fetchFutureStatus` of `get` are the statuses the store had before `clear`.  Clearing
twice is clearing once. -/
theorem clear_resets_state (store : Store) :
    (Store.clearMutation store).state = initialState ∧
    (Store.clearMutation store).state.id = JsVal.null ∧
    (Store.clearMutation store).state.messages = none ∧
    (Store.clearMutation store).state.thread = Message.empty ∧
    (Store.clearMutation store).statuses = store.statuses ∧
    (Store.clearAction store).state = initialState ∧
    (Store.clearAction store).statuses.send = Status.idle ∧
    (Store.clearAction store).statuses.fetch = store.statuses.fetch ∧
    (Store.clearAction store).statuses.fetchFuture = store.statuses.fetchFuture ∧
    (Store.clearAction store).statuses.setMuted = store.statuses.setMuted ∧
    (Store.clearAction store).statuses.mark = store.statuses.mark ∧
    (∀ (E : Type) (enrichMessage : Message → E),
      getters.thread enrichMessage (Store.clearMutation store).state
        = getters.thread enrichMessage Store.fresh.state) ∧
    (∀ (E U C : Type) (enrichMessage : Message → E) (usersGet : JsVal → U)
      (canFetchNext : C),
      (Store.get enrichMessage usersGet canFetchNext (Store.clearAction store)).enriched
        = (Store.get enrichMessage usersGet canFetchNext Store.fresh).enriched ∧
      (Store.get enrichMessage usersGet canFetchNext (Store.clearAction store)).messages
        = (Store.get enrichMessage usersGet canFetchNext Store.fresh).messages ∧
      (Store.get enrichMessage usersGet canFetchNext (Store.clearAction store)).author
        = (Store.get enrichMessage usersGet canFetchNext Store.fresh).author ∧
      (Store.get enrichMessage usersGet canFetchNext (Store.clearAction store)).sendStatus
        = (Store.get enrichMessage usersGet canFetchNext Store.fresh).sendStatus ∧
      (Store.get enrichMessage usersGet canFetchNext (Store.clearAction store)).fetchStatus
        = store.statuses.fetch ∧
      (Store.get enrichMessage usersGet canFetchNext
          (Store.clearAction store)).fetchFutureStatus = store.statuses.fetchFuture) ∧
    Store.clearMutation (Store.clearMutation store) = Store.clearMutation store ∧
    Store.clearAction (Store.clearAction store) = Store.clearAction store := by
  refine ⟨rfl, rfl, rfl, rfl, rfl, rfl, rfl, rfl, rfl, rfl, rfl, ?_, ?_, rfl, rfl⟩
  · intro E enrichMessage
    rfl
  · intro E U C enrichMessage usersGet canFetchNext
    exact ⟨rfl, rfl, rfl, rfl, rfl, rfl⟩

/-- C9: `maybeSetMuted (threadId, value)` dispatches `setMuted`, and so makes the
transport call, if and only if no `setMuted` is pending and `value` differs from the
mute flag of the current thread; the call it makes is the one of `setMuted`.  Hence a
call followed by a second one made while `setMuted` is pending issues at most one
transport call in all, and the second issues none. -/
theorem maybeSetMuted_runs_iff (pending : Bool) (state : State) (threadId value : JsVal) :
    ((actions.maybeSetMuted pending state threadId value).isSome
      ↔ (pending = false ∧ state.thread.muted ≠ value)) ∧
    (∀ call, actions.maybeSetMuted pending state threadId value = some call →
      call = actions.setMutedStart state threadId value) ∧
    (∀ (later : State) (laterThreadId : JsVal),
      actions.maybeSetMuted true later laterThreadId value = none ∧
      ((actions.maybeSetMuted pending state threadId value).toList ++
        (actions.maybeSetMuted true later laterThreadId value).toList).length ≤ 1) := by
  refine ⟨?_, ?_, ?_⟩
  · unfold actions.maybeSetMuted
    cases pending <;> by_cases h : state.thread.muted = value <;> simp [h]
  · intro call hcall
    unfold actions.maybeSetMuted at hcall
    dsimp only at hcall
    split at hcall
    · exact (Option.some.inj hcall).symm
    · exact absurd hcall (by simp)
  · intro later laterThreadId
    have hnone : actions.maybeSetMuted true later laterThreadId value = none := by
      simp [actions.maybeSetMuted]
    refine ⟨hnone, ?_⟩
    rw [hnone]
    cases actions.maybeSetMuted pending state threadId value <;> simp

/-- C10 fails when no thread is loaded: on the initial store, whose thread is `{}`, the
`setMuted` mutation with `true` changes the state: the thread becomes `{ muted: true }`. -/
theorem setMuted_initial_not_noop :
    mutations.setMuted initialState (JsVal.bool true) ≠ initialState ∧
    (mutations.setMuted initialState (JsVal.bool true)).thread
      = { muted := JsVal.bool true } := by
  decide

/-- C10, amended: the `setMuted` mutation sets `thread.muted` to `value` in every state,
also when no thread is loaded (the empty thread becomes `{ muted: value }`); it leaves
the identifier in scope and every other field of `thread` as they were. -/
theorem setMuted_sets_flag (state : State) (value : JsVal) :
    (mutations.setMuted state value).thread.muted = value ∧
    (mutations.setMuted state value).thread.id = state.thread.id ∧
    (mutations.setMuted state value).thread.thread = state.thread.thread ∧
    (mutations.setMuted state value).thread.author = state.thread.author ∧
    (mutations.setMuted state value).thread.ts = state.thread.ts ∧
    (mutations.setMuted state value).thread.content = state.thread.content ∧
    (mutations.setMuted state value).id = state.id ∧
    (mutations.setMuted initialState value).thread = { muted := value } :=
  ⟨rfl, rfl, rfl, rfl, rfl, rfl, rfl, rfl⟩

/-- C11: `fetch (T2)` overtaken by `clear ()`.  From any state and for any identifier
`T2` that is not `null` and not the one in scope: the start of `fetch (T2)` clears the
store and sets the scope to `T2`; `clear ()` then resets the scope to `null`; when the
transport answers, whatever root message and page it returns, the resumption of
`fetch (T2)` commits nothing and the store is the cleared initial state. -/
theorem fetch_then_clear_discards (state : State) (T2 : JsVal) (r : Message)
    (p : List Message) (hnull : T2 ≠ JsVal.null) (hdiff : state.id ≠ T2) :
    actions.fetchStart state T2 = { initialState with id := T2 } ∧
    actions.clear (actions.fetchStart state T2) = initialState ∧
    actions.fetchResume (actions.clear (actions.fetchStart state T2)) T2 r p
      = initialState := by
  have hstart : actions.fetchStart state T2 = { initialState with id := T2 } := by
    unfold actions.fetchStart
    simp only [if_pos hdiff]
    rfl
  have hclear : actions.clear (actions.fetchStart state T2) = initialState := rfl
  refine ⟨hstart, hclear, ?_⟩
  rw [hclear]
  unfold actions.fetchResume
  rw [if_pos]
  exact fun h => hnull h.symm

/-- C11 on a run of the scenario: thread `B` is in scope, `fetch ("A")` starts,
`clear ()` is called, then the answer for `A` arrives. -/
theorem fetch_then_clear_discards_witness :
    actions.fetchStart Sample.loadedB (JsVal.str "A")
      = { initialState with id := JsVal.str "A" } ∧
    actions.clear (actions.fetchStart Sample.loadedB (JsVal.str "A")) = initialState ∧
    actions.fetchResume (actions.clear (actions.fetchStart Sample.loadedB (JsVal.str "A")))
      (JsVal.str "A") Sample.rootA [Sample.rootA, Sample.replyA] = initialState :=
  fetch_then_clear_discards Sample.loadedB (JsVal.str "A") Sample.rootA
    [Sample.rootA, Sample.replyA] (by decide) (by decide)

/-- C12: `update` on an empty store.  When `messages` is `null`, the `update` mutation
sets it to exactly the batch it is given, same elements in the same order, nothing
merged and nothing removed, and leaves the identifier in scope and `thread` as they
were. -/
theorem update_initialises (state : State) (newMessages : List Message)
    (hnull : state.messages = none) :
    (mutations.update state newMessages).messages = some newMessages ∧
    (mutations.update state newMessages).id = state.id ∧
    (mutations.update state newMessages).thread = state.thread := by
  unfold mutations.update
  rw [hnull]
  exact ⟨rfl, rfl, rfl⟩

/-- C12 on a batch that is neither ordered nor free of duplicates: it is stored as it
is. -/
theorem update_initialises_witness :
    (mutations.update Sample.awaitingT1 [Sample.M3, Sample.M1, Sample.M3]).messages
      = some [Sample.M3, Sample.M1, Sample.M3] ∧
    (mutations.update Sample.awaitingT1 [Sample.M3, Sample.M1, Sample.M3]).id
      = Sample.awaitingT1.id ∧
    (mutations.update Sample.awaitingT1 [Sample.M3, Sample.M1, Sample.M3]).thread
      = Sample.awaitingT1.thread :=
  update_initialises Sample.awaitingT1 [Sample.M3, Sample.M1, Sample.M3] rfl

/-- C13: the identifier in scope changes only through `setScope` or `clear`.  The
mutations `setThread`, `setMuted` and `update`, the action `receiveMessage` (and `send`,
which ends in it), and the resumptions of `fetch`, `fetchFuture` and `setMuted` after
their transport calls leave `state.id` as it was, for every state and every argument. -/
theorem id_changes_only_by_scope_or_clear (state : State) (thread message r : Message)
    (value messageId captured : JsVal) (batch p data : List Message) :
    (mutations.setThread state thread).id = state.id ∧
    (mutations.setMuted state value).id = state.id ∧
    (mutations.update state batch).id = state.id ∧
    (actions.receiveMessage state message).id = state.id ∧
    (actions.sendResume state message).id = state.id ∧
    (actions.fetchResume state messageId r p).id = state.id ∧
    (actions.fetchFutureResume state captured data).id = state.id ∧
    (actions.setMutedResume state value).id = state.id := by
  have hupdate : ∀ (s : State) (l : List Message), (mutations.update s l).id = s.id := by
    intro s l
    unfold mutations.update
    cases s.messages <;> rfl
  have hreceive : (actions.receiveMessage state message).id = state.id := by
    unfold actions.receiveMessage
    split
    · rfl
    · dsimp only
      split
      · exact hupdate state [message]
      · exact hupdate state [message]
  refine ⟨rfl, rfl, hupdate state batch, hreceive, hreceive, ?_, ?_, rfl⟩
  · unfold actions.fetchResume
    split
    · rfl
    · exact hupdate _ _
  · unfold actions.fetchFutureResume
    split
    · rfl
    · exact hupdate _ _

/-- C14: `receiveMessage` with a message of the thread in scope.  When a thread is in
scope (`state.id` is truthy) and `m.thread` equals `state.id`, `m` goes into `messages`
through `update` (a `null` list becomes `[m]`, any other list is merged with `[m]`);
`thread` is replaced by `m` when `m.id` equals `state.id`, and is left as it was when
`m.id` differs. -/
theorem receiveMessage_same_thread (state : State) (m : Message)
    (hscoped : state.id.truthy = true) (hthread : m.thread = state.id) :
    (actions.receiveMessage state m).messages = (mutations.update state [m]).messages ∧
    (actions.receiveMessage state m).messages
      = some (match state.messages with
          | none => [m]
          | some stateMessages => insertSorted stateMessages [m]) ∧
    (m.id = state.id → (actions.receiveMessage state m).thread = m) ∧
    (m.id ≠ state.id → (actions.receiveMessage state m).thread = state.thread) := by
  have hupdate : (mutations.update state [m]).id = state.id ∧
      (mutations.update state [m]).thread = state.thread ∧
      (mutations.update state [m]).messages
        = some (match state.messages with
            | none => [m]
            | some stateMessages => insertSorted stateMessages [m]) := by
    unfold mutations.update
    cases state.messages <;> exact ⟨rfl, rfl, rfl⟩
  have hrun : actions.receiveMessage state m
      = if m.id = state.id then mutations.setThread (mutations.update state [m]) m
        else mutations.update state [m] := by
    unfold actions.receiveMessage
    rw [if_neg (by simp [hscoped, hthread])]
    simp only [hupdate.1]
  rw [hrun]
  by_cases hid : m.id = state.id
  · rw [if_pos hid]
    exact ⟨rfl, hupdate.2.2, fun _ => rfl, fun h => absurd hid h⟩
  · rw [if_neg hid]
    exact ⟨rfl, hupdate.2.2, fun h => absurd h hid, fun _ => hupdate.2.1⟩

/-- C14 on a reply and on the root arriving at the store that holds thread `A`: the
reply `A2` is merged and leaves `thread`; the root, arriving muted, is merged and
becomes `thread`. -/
theorem receiveMessage_same_thread_witness :
    ((actions.receiveMessage Sample.loadedA Sample.replyA).messages
        = (mutations.update Sample.loadedA [Sample.replyA]).messages ∧
      (actions.receiveMessage Sample.loadedA Sample.replyA).thread = Sample.loadedA.thread) ∧
    ((actions.receiveMessage Sample.loadedA Sample.liveRootA).messages
        = (mutations.update Sample.loadedA [Sample.liveRootA]).messages ∧
      (actions.receiveMessage Sample.loadedA Sample.liveRootA).thread = Sample.liveRootA) :=
  ⟨⟨(receiveMessage_same_thread Sample.loadedA Sample.replyA (by decide) (by decide)).1,
    (receiveMessage_same_thread Sample.loadedA Sample.replyA (by decide) (by decide)).2.2.2
      (by decide)⟩,
   ⟨(receiveMessage_same_thread Sample.loadedA Sample.liveRootA (by decide) (by decide)).1,
    (receiveMessage_same_thread Sample.loadedA Sample.liveRootA (by decide)
      (by decide)).2.2.1 (by decide)⟩⟩

/-- C15: the part of `fetch (messageId)` that runs before the transport is awaited.  If
`messageId` differs from the identifier in scope the store is cleared first (`messages`
is `null`, `thread` is empty); if it is the same, `messages` and `thread` are kept as
they are; in both cases the identifier in scope is `messageId` afterwards. -/
theorem fetchStart_before_await (state : State) (messageId : JsVal) :
    (state.id ≠ messageId →
      (actions.fetchStart state messageId).messages = none ∧
      (actions.fetchStart state messageId).thread = Message.empty) ∧
    (state.id = messageId →
      (actions.fetchStart state messageId).messages = state.messages ∧
      (actions.fetchStart state messageId).thread = state.thread) ∧
    (actions.fetchStart state messageId).id = messageId := by
  unfold actions.fetchStart
  refine ⟨?_, ?_, rfl⟩
  · intro h
    simp only [if_pos h]
    exact ⟨rfl, rfl⟩
  · intro h
    simp only [if_neg (not_not.2 h)]
    exact ⟨rfl, rfl⟩

/-- C15 on the store that holds thread `B`: `fetch ("A")` clears it, `fetch ("B")`
keeps list and thread. -/
theorem fetchStart_before_await_witness :
    ((actions.fetchStart Sample.loadedB (JsVal.str "A")).messages = none ∧
      (actions.fetchStart Sample.loadedB (JsVal.str "A")).thread = Message.empty) ∧
    ((actions.fetchStart Sample.loadedB (JsVal.str "B")).messages = Sample.loadedB.messages ∧
      (actions.fetchStart Sample.loadedB (JsVal.str "B")).thread = Sample.loadedB.thread) ∧
    (actions.fetchStart Sample.loadedB (JsVal.str "A")).id = JsVal.str "A" :=
  ⟨(fetchStart_before_await Sample.loadedB (JsVal.str "A")).1 (by decide),
   (fetchStart_before_await Sample.loadedB (JsVal.str "B")).2.1 (by decide),
   (fetchStart_before_await Sample.loadedB (JsVal.str "A")).2.2⟩

/-- C16: the guard of `fetch` compares identifiers, not requests.  For any two different
identifiers `A` and `B` and from any state: `fetch (A)` starts, `fetch (B)` starts,
`fetch (A)` starts a second time; the store is then cleared under scope `A`, and when
the first `fetch (A)` resumes with its root message `r` and page `p`, it passes the
guard and commits them: `thread` is the stamped `r` and `messages` is the stamped `r`
followed by `p` without its first element. -/
theorem superseded_fetch_commits (state : State) (A B : JsVal) (r : Message)
    (p : List Message) (hAB : A ≠ B) :
    actions.fetchStart (actions.fetchStart (actions.fetchStart state A) B) A
      = { initialState with id := A } ∧
    actions.fetchResume
        (actions.fetchStart (actions.fetchStart (actions.fetchStart state A) B) A) A r p
      = { id := A
          messages := some ({ r with thread := r.id } :: p.drop 1)
          thread := { r with thread := r.id } } := by
  have hB : actions.fetchStart (actions.fetchStart state A) B
      = { initialState with id := B } := by
    have hid : (actions.fetchStart state A).id ≠ B := hAB
    unfold actions.fetchStart at hid ⊢
    simp only [if_pos hid]
    rfl
  have hA : actions.fetchStart (actions.fetchStart (actions.fetchStart state A) B) A
      = { initialState with id := A } := by
    rw [hB]
    unfold actions.fetchStart
    have hid : ({ initialState with id := B } : State).id ≠ A := fun h => hAB h.symm
    simp only [if_pos hid]
    rfl
  refine ⟨hA, ?_⟩
  rw [hA]
  unfold actions.fetchResume
  rw [if_neg (by simp)]
  rfl

/-- C16 on a run: thread `A` is asked for, then `B`, then `A` again; the answer to the
first request for `A`, with the root as it was then, is committed. -/
theorem superseded_fetch_commits_witness :
    JsVal.str "A" ≠ JsVal.str "B" ∧
    actions.fetchStart (actions.fetchStart (actions.fetchStart initialState (JsVal.str "A"))
        (JsVal.str "B")) (JsVal.str "A") = { initialState with id := JsVal.str "A" } ∧
    actions.fetchResume
        (actions.fetchStart (actions.fetchStart (actions.fetchStart initialState
          (JsVal.str "A")) (JsVal.str "B")) (JsVal.str "A"))
        (JsVal.str "A") Sample.staleRootA [Sample.staleRootA, Sample.replyA]
      = { id := JsVal.str "A"
          messages := some ({ Sample.staleRootA with thread := Sample.staleRootA.id } ::
            [Sample.staleRootA, Sample.replyA].drop 1)
          thread := { Sample.staleRootA with thread := Sample.staleRootA.id } } :=
  ⟨by decide, superseded_fetch_commits initialState (JsVal.str "A") (JsVal.str "B")
    Sample.staleRootA [Sample.staleRootA, Sample.replyA] (by decide)⟩

/-- C17: what `fetch` commits from a cleared store.  With `messages` still `null` and
the guard passing, for every root message `r` and page `p`: `messages` is the stamped
root followed by `p` without its first element, whatever that element is; the
committed list has `max 1 |p|` elements, and for an empty page it is the stamped root
alone. -/
theorem fetchResume_commits_drop_one (state : State) (messageId : JsVal) (r : Message)
    (p : List Message) (hnull : state.messages = none) (hscope : state.id = messageId) :
    (actions.fetchResume state messageId r p).messages
      = some ({ r with thread := r.id } :: p.drop 1) ∧
    (∀ committed, (actions.fetchResume state messageId r p).messages = some committed →
      committed.length = max 1 p.length) ∧
    (p = [] →
      (actions.fetchResume state messageId r p).messages = some [{ r with thread := r.id }]) := by
  have hres : (actions.fetchResume state messageId r p).messages
      = some ({ r with thread := r.id } :: p.drop 1) := by
    unfold actions.fetchResume
    rw [if_neg (not_not.2 hscope)]
    simp [mutations.update, mutations.setThread, hnull]
  refine ⟨hres, ?_, ?_⟩
  · intro committed hc
    rw [hres] at hc
    rw [← Option.some.inj hc]
    simp only [List.length_cons, List.length_drop]
    omega
  · intro hp
    rw [hres, hp]
    rfl

/-- C17 on a page whose first element is not the root: root `T1`, page `[M2, T1]`; `M2`
is dropped and two elements are committed. -/
theorem fetchResume_commits_drop_one_witness :
    (actions.fetchResume Sample.awaitingT1 (JsVal.str "T1") Sample.T1
        [Sample.M2, Sample.T1]).messages
      = some ({ Sample.T1 with thread := Sample.T1.id } :: [Sample.M2, Sample.T1].drop 1) ∧
    (∀ committed, (actions.fetchResume Sample.awaitingT1 (JsVal.str "T1") Sample.T1
        [Sample.M2, Sample.T1]).messages = some committed →
      committed.length = max 1 [Sample.M2, Sample.T1].length) ∧
    ([Sample.M2, Sample.T1] = [] →
      (actions.fetchResume Sample.awaitingT1 (JsVal.str "T1") Sample.T1
        [Sample.M2, Sample.T1]).messages
      = some [{ Sample.T1 with thread := Sample.T1.id }]) :=
  fetchResume_commits_drop_one Sample.awaitingT1 (JsVal.str "T1") Sample.T1
    [Sample.M2, Sample.T1] rfl rfl

/-- C18: a live message that arrives while the first `fetch` is in flight initialises
the list.  When a thread is in scope, `messages` is `null` and `m.thread` equals
`state.id`, `receiveMessage (m)` sets `messages` to exactly `[m]`; the resumption of
`fetch` that follows then goes through the merge of `update`, merging the stamped root
and the rest of the page into `[m]`, where without the live message it would have set
the list to the stamped root and the rest of the page. -/
theorem receiveMessage_initialises_list (state : State) (m r : Message) (p : List Message)
    (hscoped : state.id.truthy = true) (hnull : state.messages = none)
    (hthread : m.thread = state.id) :
    (actions.receiveMessage state m).messages = some [m] ∧
    (actions.fetchResume (actions.receiveMessage state m) state.id r p).messages
      = some (insertSorted [m] ({ r with thread := r.id } :: p.drop 1)) ∧
    (actions.fetchResume state state.id r p).messages
      = some ({ r with thread := r.id } :: p.drop 1) := by
  have hrun : (actions.receiveMessage state m).messages = some [m] ∧
      (actions.receiveMessage state m).id = state.id := by
    unfold actions.receiveMessage
    rw [if_neg (by simp [hscoped, hthread])]
    dsimp only
    split <;> simp [mutations.update, mutations.setThread, hnull]
  refine ⟨hrun.1, ?_, ?_⟩
  · unfold actions.fetchResume
    rw [if_neg (not_not.2 hrun.2)]
    simp [mutations.update, mutations.setThread, hrun.1]
  · unfold actions.fetchResume
    rw [if_neg (by simp)]
    simp [mutations.update, mutations.setThread, hnull]

/-- C18 on the store awaiting `fetch ("T1")`: the reply `M2` arrives first and the
list is `[M2]`; the answer of the transport is then merged into it. -/
theorem receiveMessage_initialises_list_witness :
    (actions.receiveMessage Sample.awaitingT1 Sample.replyT1).messages
      = some [Sample.replyT1] ∧
    (actions.fetchResume (actions.receiveMessage Sample.awaitingT1 Sample.replyT1)
        Sample.awaitingT1.id Sample.T1 [Sample.T1, Sample.replyT1]).messages
      = some (insertSorted [Sample.replyT1]
          ({ Sample.T1 with thread := Sample.T1.id } :: [Sample.T1, Sample.replyT1].drop 1)) ∧
    (actions.fetchResume Sample.awaitingT1 Sample.awaitingT1.id Sample.T1
        [Sample.T1, Sample.replyT1]).messages
      = some ({ Sample.T1 with thread := Sample.T1.id } :: [Sample.T1, Sample.replyT1].drop 1) :=
  receiveMessage_initialises_list Sample.awaitingT1 Sample.replyT1 Sample.T1
    [Sample.T1, Sample.replyT1] (by decide) rfl (by decide)

end CurrentThread
